import Mathlib

/-!
# Verification of the statusbar periodic-task supervisor

Shallow embedding of the core of the `statusbar` package (v5 sources:
`routine.go` run loop, `statusbar.go` engine/aggregator, `api_callbacks.go`
REST handlers) and proofs of the specification claims about it.

Go strings are modelled as `List Char`, one `Char` per byte (all the constants
involved — delimiters, `"..."`, `"^d^"`, `"No output"` — are ASCII, and Go's
`len`/slicing operate on bytes). Go `time.Duration` values are modelled as
nanosecond counts (`Nat`); `time.Second = 10^9`.
-/

namespace Statusbar

/-- A Go string viewed as its byte sequence. -/
abbrev GoStr := List Char

/-- `time.Second` in nanoseconds. -/
def nsPerSec : Nat := 1000000000

/-- The color terminator `"^d^"` checked by `buildBar`. -/
def colorEnd : GoStr := ['^', 'd', '^']

/-- The ellipsis appended to truncated outputs. -/
def ellipsisStr : GoStr := ['.', '.', '.']

/-- The placeholder used when the built bar is empty. -/
def noOutput : GoStr := ['N', 'o', ' ', 'o', 'u', 't', 'p', 'u', 't']

/-- The truncation step of `Statusbar.buildBar` (statusbar.go, v5):

```go
if len(s) > 60 {
    hasColor := strings.HasSuffix(s, "^d^")
    s = s[:56] + "..."
    if hasColor {
        s += "^d^"
    }
}
```
-/
def shorten (s : GoStr) : GoStr :=
  if s.length > 60 then
    let hasColor := colorEnd.isSuffixOf s
    let s' := s.take 56 ++ ellipsisStr
    if hasColor then s' ++ colorEnd else s'
  else
    s

/-- The body of `buildBar`'s loop over the outputs slice, starting at index
`i0`: each non-empty output is wrapped in the delimiters, shortened, and
followed by a space; after index `split` the `';'` marker is written.

```go
for i, s := range outputs {
    if len(s) > 0 {
        b.WriteString(sb.leftDelim)
        // (shorten, see above)
        b.WriteString(s)
        b.WriteString(sb.rightDelim)
        b.WriteByte(' ')
    }
    if i == sb.split {
        b.WriteByte(';')
    }
}
```
-/
def buildFrags (lD rD : GoStr) (split : Int) (outputs : List GoStr) (i0 : Nat) : GoStr :=
  match outputs with
  | [] => []
  | s :: rest =>
      (if s.length > 0 then lD ++ shorten s ++ rD ++ [' '] else [])
        ++ (if (i0 : Int) = split then [';'] else [])
        ++ buildFrags lD rD split rest (i0 + 1)

/-- One aggregation step of `buildBar`: build the fragments, then

```go
s := "No output" // Default if nothing else is available
if b.Len() > 0 {
    s = b.String()
    s = s[:b.Len()-1] // Remove last space.
}
```
-/
def buildBarString (lD rD : GoStr) (split : Int) (outputs : List GoStr) : GoStr :=
  let b := buildFrags lD rD split outputs 0
  if b.length > 0 then b.dropLast else noOutput

/-- Spec-side description of the join step (§4.2 step 4 of the spec): the
fragments separated by single spaces, with no trailing space. Used to compare
`buildBarString` against the spec's words. -/
def sepJoin : List GoStr → GoStr
  | [] => []
  | [x] => x
  | x :: y :: rest => x ++ ' ' :: sepJoin (y :: rest)

/-- Spec-side description of the wrapped fragments (§4.2 step 2 of the
spec): each non-empty slot, shortened and wrapped in the delimiters, in
order. -/
def specWrapped (lD rD : GoStr) (outputs : List GoStr) : List GoStr :=
  (outputs.filter (fun s => s.length > 0)).map (fun s => lD ++ shorten s ++ rD)

/-! ## The routine run loop (routine.go, v5: `func (r *routine) run`)

The loop is driven by the Monitor (`RoutineHandler`): each iteration calls
`Update() (bool, error)`, renders `String()` on success or `Error()` on error,
writes the rendered string into the shared outputs slice, and then either
breaks (critical error, or zero interval) or waits on the select over
`updateChan` / `stopChan` / the computed timeout. We embed one execution as a
function of a script: the list of Monitor results the successive `Update`
calls return, and the list of outcomes of the successive `select`s. The
function emits the trace of observable events. -/

/-- The result of one `handler.Update()` call together with the strings the
handler would render for this iteration (`String()` and `Error()`). -/
structure MonitorStep where
  ok : Bool
  err : Option GoStr
  outStr : GoStr
  errStr : GoStr
deriving DecidableEq, Repr

/-- Which arm of the routine's `select` fires for one iteration. -/
inductive Signal where
  | refresh : Signal
  | stop : Signal
  | timeout : Signal
deriving DecidableEq, Repr

/-- Observable events of one routine execution: an `Update` call, a write of
the rendered string into the routine's output slot, a `select` wait whose
timeout arm uses the given effective interval (nanoseconds), and the final
exit from the loop. -/
inductive Event where
  | updateCall : Event
  | write : GoStr → Event
  | selectWait : Nat → Event
  | exit : Event
deriving DecidableEq, Repr

/-- The rendered string of an iteration:
`if err == nil { output = r.handler.String() } else { output = r.handler.Error() }`. -/
def renderOutput (m : MonitorStep) : GoStr :=
  match m.err with
  | none => m.outStr
  | some _ => m.errStr

/-- The backoff computation of `run` (routine.go, v5), in nanoseconds:

```go
seconds := r.intervalTime / time.Second
switch {
case seconds < 60:
    interval = 5 * time.Second
case seconds < 60*15:
    interval = 60 * time.Second
default:
    interval = 60 * 5 * time.Second
}
```
-/
def backoffNs (intervalNs : Nat) : Nat :=
  let seconds := intervalNs / nsPerSec
  if seconds < 60 then 5 * nsPerSec
  else if seconds < 60 * 15 then 60 * nsPerSec
  else 60 * 5 * nsPerSec

/-- The effective interval passed to the iteration's `select` timeout:
the configured interval, overridden by the backoff tier when `Update`
returned an error. -/
def effInterval (intervalNs : Nat) (err : Option GoStr) : Nat :=
  match err with
  | none => intervalNs
  | some _ => backoffNs intervalNs

/-- One routine execution (`run`, routine.go v5), driven by the script of
`Update` results and `select` outcomes. Returns the event trace, the final
outputs slice, and whether the loop exited (reached terminal state). A run
whose scripts are exhausted before the loop breaks is still running: no
`exit` event is emitted and the flag is `false`. -/
def runLoop (intervalNs index : Nat) :
    List MonitorStep → List Signal → List GoStr → List Event × List GoStr × Bool
  | [], _, outputs => ([], outputs, false)
  | m :: rest, signals, outputs =>
    let out := renderOutput m
    let outputs' := outputs.set index out
    let pre : List Event := [.updateCall, .write out]
    if !m.ok then
      (pre ++ [.exit], outputs', true)
    else if intervalNs = 0 then
      (pre ++ [.exit], outputs', true)
    else
      let eff := effInterval intervalNs m.err
      match signals with
      | [] => (pre, outputs', false)
      | sig :: sigRest =>
        match sig with
        | .stop => (pre ++ [.selectWait eff, .exit], outputs', true)
        | _ =>
          let res := runLoop intervalNs index rest sigRest outputs'
          (pre ++ .selectWait eff :: res.1, res.2)

/-- Number of `Update` calls recorded in a trace. -/
def countUpdates (t : List Event) : Nat :=
  t.countP (fun e => e = Event.updateCall)

/-- Number of `select` waits recorded in a trace. -/
def countSelects (t : List Event) : Nat :=
  t.countP (fun e => match e with | Event.selectWait _ => true | _ => false)

/-! ## Routine descriptors and the REST control plane

A `routine` (routine.go, v5) owns its handler, a module name, an interval,
the `isActive`/`startTime` status fields, and the two capacity-1 signal
channels `updateChan` and `stopChan`. A capacity-1 channel of `struct{}` is
modelled by its occupancy: a `Bool` that is `true` when the single slot holds
a pending signal. A nilable `*routine` receiver is modelled as
`Option Routine`; the statusbar's list holds non-nil routines. API handlers
mutate the found routine through its pointer; we model this as replacing the
element at the found index. -/

/-- State of one routine descriptor (routine.go, v5). `handlerName` stands for
the owned handler's `Name()`, the only handler data the descriptor logic
reads outside the run loop. -/
structure Routine where
  isActive : Bool
  startTime : Nat
  intervalTime : Nat
  name : GoStr
  handlerName : GoStr
  updateFull : Bool
  stopFull : Bool
deriving DecidableEq, Inhabited, Repr

/-- The `active` accessor: `if r != nil { return r.isActive }; return false`. -/
def active (r : Option Routine) : Bool :=
  match r with
  | some r => r.isActive
  | none => false

/-- The `uptime` accessor (routine.go, v5): seconds since `startTime` while
the routine is active, and `0` for a nil or inactive routine. `now` and
`startTime` are nanosecond timestamps. -/
def uptime (r : Option Routine) (now : Nat) : Nat :=
  match r with
  | some r => if r.isActive then (now - r.startTime) / nsPerSec else 0
  | none => 0

/-- The `interval` accessor: the routine's interval in seconds (0 for nil). -/
def interval (r : Option Routine) : Nat :=
  match r with
  | some r => r.intervalTime / nsPerSec
  | none => 0

/-- The `moduleName` accessor (`""` for nil). -/
def moduleName (r : Option Routine) : GoStr :=
  match r with
  | some r => r.name
  | none => []

/-- The `displayName` accessor (`"Unknown"` for nil). -/
def displayName (r : Option Routine) : GoStr :=
  match r with
  | some r => r.handlerName
  | none => ['U', 'n', 'k', 'n', 'o', 'w', 'n']

/-- The `setInterval` setter for a non-negative number of seconds (the only
way it is reached from the API handler, which guards `info.Interval >= 0`):
`r.intervalTime = time.Duration(interval) * time.Second`. -/
def setInterval (r : Routine) (seconds : Nat) : Routine :=
  { r with intervalTime := seconds * nsPerSec }

/-- The `routineInfo` record returned by routine queries (api_callbacks.go). -/
structure RoutineInfo where
  infoName : GoStr
  infoUptime : Nat
  infoInterval : Nat
  infoActive : Bool
deriving DecidableEq, Repr

/-- The `getRoutineInfo` helper (api_callbacks.go): status of one routine,
the zero `routineInfo` for nil. -/
def getRoutineInfo (r : Option Routine) (now : Nat) : RoutineInfo :=
  match r with
  | some r =>
      { infoName := displayName (some r)
        infoUptime := uptime (some r) now
        infoInterval := interval (some r)
        infoActive := active (some r) }
  | none => { infoName := [], infoUptime := 0, infoInterval := 0, infoActive := false }

/-- The `getRoutine` helper (api_callbacks.go): the first routine whose
`moduleName` equals `name`, or an error if none matches. Mutation of the
found `*routine` is modelled by updating the list at the found index, so the
lookup returns that index. -/
def getRoutine (routines : List Routine) (name : GoStr) : Option Nat :=
  match routines with
  | [] => none
  | r :: rest =>
      if name = r.name then some 0
      else (getRoutine rest name).map (· + 1)

/-- `HandlePutRoutine` (api_callbacks.go): refresh one routine. Unknown name
gives 400; for an active routine a non-blocking send is tried on its
capacity-1 `updateChan` — if the slot is already full the handler answers
500 (`"failure"`) without blocking, otherwise the signal is deposited and
the handler answers 204. An inactive routine is skipped and still answers
204. -/
def handlePutRoutine (routines : List Routine) (name : GoStr) : List Routine × Nat :=
  match getRoutine routines name with
  | none => (routines, 400)
  | some i =>
      let r := routines.getD i default
      if r.isActive then
        if r.updateFull then (routines, 500)
        else (routines.set i { r with updateFull := true }, 204)
      else (routines, 204)

/-- `HandlePutRoutineAll` (api_callbacks.go): refresh every active routine
with the same non-blocking send; at the first full channel the handler stops
and answers 500, leaving the remaining routines unsignalled; otherwise 204. -/
def handlePutRoutineAll (routines : List Routine) : List Routine × Nat :=
  match routines with
  | [] => ([], 204)
  | r :: rest =>
      if r.isActive then
        if r.updateFull then (r :: rest, 500)
        else
          let res := handlePutRoutineAll rest
          ({ r with updateFull := true } :: res.1, res.2)
      else
        let res := handlePutRoutineAll rest
        (r :: res.1, res.2)

/-- The request body of a PATCH request, as seen after `ioutil.ReadAll` and
`json.Unmarshal`: absent/empty body, malformed JSON, or a well-formed object
whose `interval` field may be present or absent. -/
inductive PatchBody where
  | missing : PatchBody
  | malformed : PatchBody
  | parsed : Option Int → PatchBody
deriving DecidableEq, Repr

/-- `HandlePatchRoutine` (api_callbacks.go): unknown name, missing body, or
malformed JSON give 400. The decoded `interval` defaults to `-1` when the
field is absent; only a value `>= 0` updates the routine's interval — a
negative value is silently ignored. In every non-400 case a refresh is then
attempted on an active routine (500 when its `updateChan` slot is already
full), and the handler answers 202. -/
def handlePatchRoutine (routines : List Routine) (name : GoStr) (body : PatchBody) :
    List Routine × Nat :=
  match getRoutine routines name with
  | none => (routines, 400)
  | some i =>
      match body with
      | PatchBody.missing => (routines, 400)
      | PatchBody.malformed => (routines, 400)
      | PatchBody.parsed intv =>
          let infoInterval : Int := match intv with | none => -1 | some k => k
          let r := routines.getD i default
          let r1 := if 0 ≤ infoInterval then setInterval r infoInterval.toNat else r
          if r1.isActive then
            if r1.updateFull then (routines.set i r1, 500)
            else (routines.set i { r1 with updateFull := true }, 202)
          else (routines.set i r1, 202)

/-- Number of pending refresh signals in a routine's capacity-1 channel. -/
def pendingUpdates (r : Routine) : Nat :=
  if r.updateFull then 1 else 0

/-! ## Registration (`Statusbar.Append`, statusbar.go v5) -/

/-- Abbreviation for writing Go string literals as byte lists. -/
def gs (s : String) : GoStr := s.data

/-- `strings.TrimPrefix(s, "*")`. -/
def trimStar (s : GoStr) : GoStr :=
  match s with
  | '*' :: rest => rest
  | s => s

/-- The module-name derivation of `Append` (statusbar.go, v5): the handler's
type string (`reflect.TypeOf(handler).String()`, e.g. `"*sbbattery.Routine"`)
is split on `'.'`; when that yields exactly two fields the leading `'*'` is
trimmed from the first and the result becomes the routine's module name;
otherwise the name is left at its zero value `""`. -/
def moduleNameOfType (refType : GoStr) : GoStr :=
  let fields := refType.splitOn '.'
  if fields.length = 2 then trimStar (fields.getD 0 [])
  else []

/-- One `Append` call: a fresh routine with the given interval and the module
name derived from the handler's type string is added at the end of the
list. -/
def appendRoutine (routines : List Routine) (refType handlerNm : GoStr) (seconds : Nat) :
    List Routine :=
  routines ++ [{ isActive := false, startTime := 0, intervalTime := seconds * nsPerSec,
                 name := moduleNameOfType refType, handlerName := handlerNm,
                 updateFull := false, stopFull := false }]

/-- A sequence of `Append` calls starting from the empty statusbar. -/
def appendAll (regs : List (GoStr × GoStr × Nat)) : List Routine :=
  regs.foldl (fun acc p => appendRoutine acc p.1 p.2.1 p.2.2) []

/-- Concrete routine used by witnesses: the descriptor `Append` creates for
an `sbfan.Routine` handler registered with a 5-second interval. -/
def fanSample : Routine :=
  { isActive := false, startTime := 0, intervalTime := 5 * nsPerSec, name := gs "sbfan",
    handlerName := gs "Fan", updateFull := false, stopFull := false }

/-- Concrete routine used by witnesses: active, with an empty refresh slot. -/
def activeSample : Routine :=
  { isActive := true, startTime := 7, intervalTime := 10 * nsPerSec,
    name := gs "sbbattery", handlerName := gs "Battery", updateFull := false,
    stopFull := false }

/-- Concrete routine used by witnesses: stopped, with a start timestamp in
the past. -/
def stoppedSample : Routine :=
  { isActive := false, startTime := 5, intervalTime := 0, name := gs "sbfan",
    handlerName := gs "Fan", updateFull := false, stopFull := false }

/-! ## The outputs slice as a token on a capacity-1 channel

`Statusbar.Run` (statusbar.go, v5) creates `outputsChan := make(chan []string, 1)`
and deposits the outputs slice in it once. Every access there is of the
shape: receive the slice from the channel, read or write it, send it back
immediately. Supervisor `i` (routine.go lines 71–73) writes slot `i`:
`outputs := <-outputsChan; outputs[index] = output; outputsChan <- outputs`;
the aggregator (`buildBar`) receives the slice, reads every slot, and sends
it back unchanged. We model the processes and the channel as a state-machine
step relation: a `take` consumes the channel's content (blocking when empty,
so it only fires when the channel is full), a put requires the channel to be
empty (capacity 1) and deposits the slice back, with the supervisor's slot
write happening while it holds the slice. -/

/-- One concurrent process: supervisor `i` has `wIdx = some i` (it writes
only slot `i`), the aggregator has `wIdx = none`. `holding` is the slice
taken from the channel while the process is between its receive and its
send; `pending` are the outputs it will write on its next iterations, and
`done` the outputs it has already written, in order. -/
structure ProcState where
  wIdx : Option Nat
  holding : Option (List GoStr)
  pending : List GoStr
  done : List GoStr
deriving DecidableEq, Repr

/-- The whole system: the capacity-1 channel content and all processes. -/
structure Sys where
  chan : Option (List GoStr)
  procs : List ProcState
deriving DecidableEq, Repr

/-- The last value a supervisor wrote into its slot (the initial `""` if it
has not written yet). -/
def lastDone (p : ProcState) : GoStr :=
  p.done.getLast?.getD []

/-- Interleaving semantics of the channel accesses: `take` receives the
slice (only possible while the channel holds it; a writer only takes when it
has an output to store), `putSup` stores the writer's output in its slot and
sends the slice back, `putAgg` sends it back unchanged after the aggregator's
read. Sends require the capacity-1 channel to be empty. -/
inductive Step : Sys → Sys → Prop where
  | take {s : Sys} (i : Nat) (p : ProcState) (arr : List GoStr) :
      s.procs[i]? = some p → p.holding = none →
      (p.wIdx = none ∨ p.pending ≠ []) → s.chan = some arr →
      Step s { chan := none, procs := s.procs.set i { p with holding := some arr } }
  | putSup {s : Sys} (i k : Nat) (p : ProcState) (arr : List GoStr) (v : GoStr)
      (rest : List GoStr) :
      s.procs[i]? = some p → p.holding = some arr → p.wIdx = some k →
      p.pending = v :: rest → s.chan = none →
      Step s { chan := some (arr.set k v),
               procs := s.procs.set i
                 { p with holding := none, pending := rest, done := p.done ++ [v] } }
  | putAgg {s : Sys} (i : Nat) (p : ProcState) (arr : List GoStr) :
      s.procs[i]? = some p → p.holding = some arr → p.wIdx = none → s.chan = none →
      Step s { chan := some arr, procs := s.procs.set i { p with holding := none } }

/-- The system as set up by `Run`: the slice `make([]string, n)` of empty
strings deposited once in the channel, one supervisor per routine (process
`i` writes slot `i` and will produce the outputs scripted in `pends`), and
the aggregator as the final process. -/
def initSys (pends : List (List GoStr)) : Sys :=
  { chan := some (List.replicate pends.length [])
    procs := (List.range pends.length).map
        (fun i => { wIdx := some i, holding := none, pending := pends.getD i [],
                    done := [] })
      ++ [{ wIdx := none, holding := none, pending := [], done := [] }] }

/-- Reflexive-transitive closure of `Step`. -/
inductive Reachable (s0 : Sys) : Sys → Prop where
  | refl : Reachable s0 s0
  | tail (s1 s2 : Sys) : Reachable s0 s1 → Step s1 s2 → Reachable s0 s2

/-- The safety invariant of the token hand-off, for `n` supervisors:
the channel content and at most one holder account for the single token;
process `i < n` is supervisor `i` and the last process is the aggregator;
and every copy of the slice in circulation has length `n` and holds, at
each slot, exactly the last value its owning supervisor wrote. -/
def SysInv (n : Nat) (s : Sys) : Prop :=
  (s.chan.isSome = true → ∀ (i : Nat) (p : ProcState), s.procs[i]? = some p →
      p.holding = none)
  ∧ (∀ (i j : Nat) (p q : ProcState), s.procs[i]? = some p → s.procs[j]? = some q →
      p.holding.isSome = true → q.holding.isSome = true → i = j)
  ∧ s.procs.length = n + 1
  ∧ (∀ (i : Nat) (p : ProcState), s.procs[i]? = some p →
      p.wIdx = if i < n then some i else none)
  ∧ (∀ arr : List GoStr,
      (s.chan = some arr ∨ ∃ (j : Nat) (p : ProcState), s.procs[j]? = some p ∧
        p.holding = some arr) →
      arr.length = n
      ∧ ∀ (k : Nat) (p : ProcState) (w : Nat), s.procs[k]? = some p → p.wIdx = some w →
          arr[w]? = some (lastDone p))


/-! ## Theorems about the run loop -/

theorem countUpdates_runLoop_le (intervalNs index : Nat) (steps : List MonitorStep)
    (signals : List Signal) (outputs : List GoStr) :
    countUpdates (runLoop intervalNs index steps signals outputs).1
      ≤ List.findIdx (fun m => !m.ok) steps + 1 := by
  induction steps generalizing signals outputs with
  | nil => simp [runLoop, countUpdates]
  | cons m rest ih =>
    rw [runLoop, List.findIdx_cons]
    by_cases hok : m.ok
    · simp only [hok, Bool.not_true, cond_false]
      by_cases hiv : intervalNs = 0
      · simp [hiv, countUpdates]
      · cases signals with
        | nil => simp [hiv, countUpdates]
        | cons sig sigRest =>
          cases sig with
          | stop => simp [hiv, countUpdates]
          | refresh =>
            have h := ih sigRest (outputs.set index (renderOutput m))
            simp only [hiv, if_neg hiv, countUpdates, List.countP_append,
              List.countP_cons] at h ⊢
            simp_all [countUpdates]
          | timeout =>
            have h := ih sigRest (outputs.set index (renderOutput m))
            simp only [hiv, if_neg hiv, countUpdates, List.countP_append,
              List.countP_cons] at h ⊢
            simp_all [countUpdates]
    · simp [hok, countUpdates]

theorem exit_runLoop_last (intervalNs index : Nat) (steps : List MonitorStep)
    (signals : List Signal) (outputs : List GoStr)
    (hmem : Event.exit ∈ (runLoop intervalNs index steps signals outputs).1) :
    ∃ t1 t2 s, (runLoop intervalNs index steps signals outputs).1
        = t1 ++ Event.updateCall :: Event.write s :: (t2 ++ [Event.exit])
      ∧ Event.exit ∉ t1 ∧ Event.exit ∉ t2 ∧ Event.updateCall ∉ t2 := by
  induction steps generalizing signals outputs with
  | nil => simp [runLoop] at hmem
  | cons m rest ih =>
    rw [runLoop] at hmem ⊢
    by_cases hok : m.ok
    · simp only [hok, Bool.not_true, Bool.false_eq_true, if_false] at hmem ⊢
      by_cases hiv : intervalNs = 0
      · exact ⟨[], [], renderOutput m, by simp [hiv], by simp, by simp, by simp⟩
      · simp only [if_neg hiv] at hmem ⊢
        cases signals with
        | nil => simp at hmem
        | cons sig sigRest =>
          cases sig with
          | stop =>
            exact ⟨[], [Event.selectWait (effInterval intervalNs m.err)], renderOutput m,
              by simp, by simp, by simp, by simp⟩
          | refresh =>
            simp only [List.append_assoc, List.cons_append, List.nil_append,
              List.mem_cons, List.mem_append] at hmem
            have hmem' : Event.exit ∈
                (runLoop intervalNs index rest sigRest (outputs.set index (renderOutput m))).1 := by
              simpa using hmem
            obtain ⟨t1, t2, s, heq, h1, h2, h3⟩ := ih sigRest (outputs.set index (renderOutput m)) hmem'
            refine ⟨Event.updateCall :: Event.write (renderOutput m) ::
              Event.selectWait (effInterval intervalNs m.err) :: t1, t2, s, ?_, ?_, h2, h3⟩
            · simp [heq]
            · simp [h1]
          | timeout =>
            simp only [List.append_assoc, List.cons_append, List.nil_append,
              List.mem_cons, List.mem_append] at hmem
            have hmem' : Event.exit ∈
                (runLoop intervalNs index rest sigRest (outputs.set index (renderOutput m))).1 := by
              simpa using hmem
            obtain ⟨t1, t2, s, heq, h1, h2, h3⟩ := ih sigRest (outputs.set index (renderOutput m)) hmem'
            refine ⟨Event.updateCall :: Event.write (renderOutput m) ::
              Event.selectWait (effInterval intervalNs m.err) :: t1, t2, s, ?_, ?_, h2, h3⟩
            · simp [heq]
            · simp [h1]
    · exact ⟨[], [], renderOutput m, by simp [hok], by simp, by simp, by simp⟩

/-- Claim C1: once an `Update` call returns `ok = false`, the routine's loop
exits permanently and no subsequent `Update` call ever occurs: the number of
`Update` calls in any execution is bounded by one more than the index of the
first `ok = false` result, so the call that returned `ok = false` is the last
one; moreover the `exit` event, when it occurs, is the final event of the
trace, and the rendered string of the exiting iteration is written to the
output slot before the exit, with no further `Update` call in between. -/
theorem run_terminal_after_not_ok (intervalNs index : Nat) (steps : List MonitorStep)
    (signals : List Signal) (outputs : List GoStr)
    (hmem : Event.exit ∈ (runLoop intervalNs index steps signals outputs).1) :
    countUpdates (runLoop intervalNs index steps signals outputs).1
      ≤ List.findIdx (fun m => !m.ok) steps + 1
    ∧ ∃ t1 t2 s, (runLoop intervalNs index steps signals outputs).1
        = t1 ++ Event.updateCall :: Event.write s :: (t2 ++ [Event.exit])
      ∧ Event.exit ∉ t1 ∧ Event.exit ∉ t2 ∧ Event.updateCall ∉ t2 :=
  ⟨countUpdates_runLoop_le intervalNs index steps signals outputs,
   exit_runLoop_last intervalNs index steps signals outputs hmem⟩

theorem run_terminal_after_not_ok_witness :
    countUpdates (runLoop 0 0 [⟨false, none, ['h'], ['e']⟩] [] [[]]).1
      ≤ List.findIdx (fun m => !m.ok) [(⟨false, none, ['h'], ['e']⟩ : MonitorStep)] + 1
    ∧ ∃ t1 t2 s, (runLoop 0 0 [⟨false, none, ['h'], ['e']⟩] [] [[]]).1
        = t1 ++ Event.updateCall :: Event.write s :: (t2 ++ [Event.exit])
      ∧ Event.exit ∉ t1 ∧ Event.exit ∉ t2 ∧ Event.updateCall ∉ t2 :=
  run_terminal_after_not_ok 0 0 [⟨false, none, ['h'], ['e']⟩] [] [[]] (by decide)

/-- Claim C2: a routine whose interval is `0` runs exactly once: the trace is
exactly one `Update` call followed by the write of the rendered string into
the output slot and the terminal exit — in particular there is no `select`
wait (no sleep, no wait on the signal channels) — and the final outputs
slice holds the rendered string at the routine's index. -/
theorem run_zero_interval_single_shot (index : Nat) (m : MonitorStep)
    (rest : List MonitorStep) (signals : List Signal) (outputs : List GoStr) :
    runLoop 0 index (m :: rest) signals outputs
      = ([Event.updateCall, Event.write (renderOutput m), Event.exit],
          outputs.set index (renderOutput m), true)
    ∧ countUpdates (runLoop 0 index (m :: rest) signals outputs).1 = 1
    ∧ countSelects (runLoop 0 index (m :: rest) signals outputs).1 = 0 := by
  rw [runLoop]
  by_cases hok : m.ok <;> simp [hok, countUpdates, countSelects]

/-- Claim C3: in an iteration where `Update` returns an error together with
`ok = true` and the configured interval is non-zero, the interval used by the
iteration's `select` timeout is the backoff tier computed from the configured
interval only: below 60 seconds the retry delay is 5 seconds, from 60 up to
but excluding 900 seconds it is 60 seconds, and at or above 900 seconds it is
300 seconds. -/
theorem run_backoff_tiers (intervalNs index : Nat) (m : MonitorStep) (e : GoStr)
    (rest : List MonitorStep) (sig : Signal) (sigRest : List Signal) (outputs : List GoStr)
    (hok : m.ok = true) (herr : m.err = some e) (hiv : intervalNs ≠ 0) :
    ((runLoop intervalNs index (m :: rest) (sig :: sigRest) outputs).1)[2]?
        = some (Event.selectWait (backoffNs intervalNs))
    ∧ (intervalNs < 60 * nsPerSec → backoffNs intervalNs = 5 * nsPerSec)
    ∧ (60 * nsPerSec ≤ intervalNs ∧ intervalNs < 900 * nsPerSec →
        backoffNs intervalNs = 60 * nsPerSec)
    ∧ (900 * nsPerSec ≤ intervalNs → backoffNs intervalNs = 300 * nsPerSec) := by
  refine ⟨?_, ?_, ?_, ?_⟩
  · rw [runLoop]
    cases sig <;> simp [hok, hiv, effInterval, herr]
  · intro h
    unfold backoffNs nsPerSec
    unfold nsPerSec at h
    simp only []
    rw [if_pos (by omega)]
  · rintro ⟨h1, h2⟩
    unfold backoffNs nsPerSec
    unfold nsPerSec at h1 h2
    rw [if_neg (by omega), if_pos (by omega)]
  · intro h
    unfold backoffNs nsPerSec
    unfold nsPerSec at h
    rw [if_neg (by omega), if_neg (by omega)]

theorem run_backoff_tiers_witness :
    ((runLoop (30 * nsPerSec) 0 [⟨true, some ['x'], ['h'], ['e']⟩] [Signal.timeout] [[]]).1)[2]?
        = some (Event.selectWait (backoffNs (30 * nsPerSec)))
    ∧ (30 * nsPerSec < 60 * nsPerSec → backoffNs (30 * nsPerSec) = 5 * nsPerSec)
    ∧ (60 * nsPerSec ≤ 30 * nsPerSec ∧ 30 * nsPerSec < 900 * nsPerSec →
        backoffNs (30 * nsPerSec) = 60 * nsPerSec)
    ∧ (900 * nsPerSec ≤ 30 * nsPerSec → backoffNs (30 * nsPerSec) = 300 * nsPerSec) :=
  run_backoff_tiers (30 * nsPerSec) 0 ⟨true, some ['x'], ['h'], ['e']⟩ ['x'] [] Signal.timeout
    [] [[]] rfl rfl (by norm_num [nsPerSec])

/-! ## Theorems about the control plane -/

/-- Claim C10: the uptime query of a routine that is not currently active —
a nil routine, or one whose `isActive` flag is off because it was stopped or
never started — returns 0 rather than the elapsed time since `startTime`,
and consequently the control-plane status report (`getRoutineInfo`) shows
uptime 0 for it. -/
theorem uptime_inactive_zero (r : Option Routine) (now : Nat) (h : active r = false) :
    uptime r now = 0 ∧ (getRoutineInfo r now).infoUptime = 0 := by
  cases r with
  | none => exact ⟨rfl, rfl⟩
  | some r =>
    have hr : r.isActive = false := by simpa [active] using h
    constructor
    · simp [uptime, hr]
    · simp [getRoutineInfo, uptime, hr]

theorem uptime_inactive_zero_witness :
    uptime (some stoppedSample) 12345678900 = 0
    ∧ (getRoutineInfo (some stoppedSample) 12345678900).infoUptime = 0 :=
  uptime_inactive_zero (some stoppedSample) 12345678900 (by decide)

theorem getRoutine_set_same_name (routines : List Routine) (name : GoStr) (i : Nat)
    (r r' : Routine) (hfind : getRoutine routines name = some i)
    (hr : routines[i]? = some r) (hname : r'.name = r.name) :
    getRoutine (routines.set i r') name = some i := by
  induction routines generalizing i with
  | nil => simp [getRoutine] at hfind
  | cons a rest ih =>
    rw [getRoutine] at hfind
    by_cases hn : name = a.name
    · rw [if_pos hn] at hfind
      have h0 : i = 0 := by
        cases hfind
        rfl
      subst h0
      have ha : a = r := by simpa using hr
      subst ha
      simp [List.set, getRoutine, hname, hn]
    · rw [if_neg hn] at hfind
      cases hg : getRoutine rest name with
      | none => rw [hg] at hfind; simp at hfind
      | some j =>
        rw [hg] at hfind
        simp only [Option.map] at hfind
        cases hfind
        have hr' : rest[j]? = some r := by simpa using hr
        have hrec := ih j hg hr'
        simp [List.set, getRoutine, hn, hrec]

/-- Claim C4: the refresh operations perform a non-blocking send on the found
routine's capacity-1 refresh channel. When the slot is free the request is
accepted (204) and the signal is deposited; when a refresh is already pending
the handler answers 500 (Busy) without blocking and without changing any
state. Two refresh requests arriving before the task wakes therefore leave
exactly one pending signal — the second is rejected, so the task performs at
most one extra immediate `Update`, never two. For the refresh-all operation:
when every active routine's slot is free, each active routine receives
exactly one signal and the handler answers 204; when the first considered
routine is active with a full slot, the handler answers 500 and signals no
one. -/
theorem refresh_nonblocking_coalesced (routines : List Routine) (name : GoStr)
    (i : Nat) (r : Routine) (hfind : getRoutine routines name = some i)
    (hr : routines[i]? = some r) (hact : r.isActive = true) :
    (r.updateFull = false →
        handlePutRoutine routines name = (routines.set i { r with updateFull := true }, 204))
    ∧ (r.updateFull = true → handlePutRoutine routines name = (routines, 500))
    ∧ (r.updateFull = false →
        (handlePutRoutine (handlePutRoutine routines name).1 name).2 = 500
        ∧ (handlePutRoutine (handlePutRoutine routines name).1 name).1
            = (handlePutRoutine routines name).1
        ∧ pendingUpdates ((handlePutRoutine routines name).1.getD i default) = 1)
    ∧ (∀ rs : List Routine, (∀ q ∈ rs, q.isActive = true → q.updateFull = false) →
        handlePutRoutineAll rs
          = (rs.map (fun q => if q.isActive then { q with updateFull := true } else q), 204))
    ∧ (∀ (q : Routine) (rest : List Routine), q.isActive = true → q.updateFull = true →
        handlePutRoutineAll (q :: rest) = (q :: rest, 500)) := by
  have hlen : i < routines.length := by
    by_contra hge
    rw [List.getElem?_eq_none (by omega)] at hr
    exact Option.noConfusion hr
  have hgetD : routines.getD i default = r := by
    rw [List.getD_eq_getElem?_getD, hr, Option.getD_some]
  have hone : r.updateFull = false →
      handlePutRoutine routines name = (routines.set i { r with updateFull := true }, 204) := by
    intro hfull
    rw [handlePutRoutine, hfind]
    simp [List.getD_eq_getElem?_getD, hr, hact, hfull]
  have hbusy : r.updateFull = true → handlePutRoutine routines name = (routines, 500) := by
    intro hfull
    rw [handlePutRoutine, hfind]
    simp [List.getD_eq_getElem?_getD, hr, hact, hfull]
  refine ⟨hone, hbusy, ?_, ?_, ?_⟩
  · intro hfull
    have hfind' : getRoutine (routines.set i { r with updateFull := true }) name = some i :=
      getRoutine_set_same_name routines name i r { r with updateFull := true } hfind hr rfl
    have hr' : (routines.set i { r with updateFull := true })[i]? =
        some { r with updateFull := true } := List.getElem?_set_self hlen
    have hsecond : handlePutRoutine (routines.set i { r with updateFull := true }) name
        = (routines.set i { r with updateFull := true }, 500) := by
      rw [handlePutRoutine, hfind']
      simp only [List.getD_eq_getElem?_getD, hr', Option.getD_some]
      simp [hact]
    refine ⟨?_, ?_, ?_⟩
    · rw [hone hfull]
      show (handlePutRoutine (routines.set i { r with updateFull := true }) name).2 = 500
      rw [hsecond]
    · rw [hone hfull]
      show (handlePutRoutine (routines.set i { r with updateFull := true }) name).1
          = routines.set i { r with updateFull := true }
      rw [hsecond]
    · rw [hone hfull]
      show pendingUpdates ((routines.set i { r with updateFull := true }).getD i default) = 1
      rw [List.getD_eq_getElem?_getD, hr']
      simp [pendingUpdates]
  · intro rs hfree
    induction rs with
    | nil => rfl
    | cons q rest ihq =>
      rw [handlePutRoutineAll]
      by_cases hq : q.isActive
      · have hqf : q.updateFull = false := hfree q (by simp) hq
        rw [if_pos hq, if_neg (by simp [hqf]),
          ihq (fun p hp hpa => hfree p (by simp [hp]) hpa)]
        simp [hq]
      · rw [if_neg hq, ihq (fun p hp hpa => hfree p (by simp [hp]) hpa)]
        simp [hq]
  · intro q rest hqa hqf
    rw [handlePutRoutineAll, if_pos hqa, if_pos hqf]

theorem refresh_nonblocking_coalesced_witness :
    (activeSample.updateFull = false →
        handlePutRoutine [activeSample] (gs "sbbattery")
          = ([activeSample].set 0 { activeSample with updateFull := true }, 204))
    ∧ (activeSample.updateFull = true →
        handlePutRoutine [activeSample] (gs "sbbattery") = ([activeSample], 500))
    ∧ (activeSample.updateFull = false →
        (handlePutRoutine (handlePutRoutine [activeSample] (gs "sbbattery")).1 (gs "sbbattery")).2
            = 500
        ∧ (handlePutRoutine (handlePutRoutine [activeSample] (gs "sbbattery")).1
              (gs "sbbattery")).1
            = (handlePutRoutine [activeSample] (gs "sbbattery")).1
        ∧ pendingUpdates ((handlePutRoutine [activeSample] (gs "sbbattery")).1.getD 0 default)
            = 1)
    ∧ (∀ rs : List Routine, (∀ q ∈ rs, q.isActive = true → q.updateFull = false) →
        handlePutRoutineAll rs
          = (rs.map (fun q => if q.isActive then { q with updateFull := true } else q), 204))
    ∧ (∀ (q : Routine) (rest : List Routine), q.isActive = true → q.updateFull = true →
        handlePutRoutineAll (q :: rest) = (q :: rest, 500)) :=
  refresh_nonblocking_coalesced [activeSample] (gs "sbbattery") 0 activeSample
    (by decide) (by decide) (by decide)

/-- Claim C7 counterexample: the patch handler does not reject a negative
interval. Patching the known routine `"sbbattery"` with body interval `-5`
answers 202 (accepted), leaves the interval unchanged, and even deposits a
refresh signal — there is no `InvalidArgument` failure. -/
theorem patch_negative_interval_not_rejected :
    (handlePatchRoutine [activeSample] (gs "sbbattery") (PatchBody.parsed (some (-5)))).2 = 202
    ∧ (handlePatchRoutine [activeSample] (gs "sbbattery")
        (PatchBody.parsed (some (-5)))).1.map Routine.intervalTime = [10 * nsPerSec] := by
  decide

/-- Claim C7 (amended): the patch-interval operation answers 400 (NotFound)
when the moduleID is unknown; a negative supplied interval is not rejected
but silently ignored — the interval stays unchanged and the request is still
accepted (202); for a non-negative interval the handler updates only the
descriptor's interval field (`setInterval` changes `intervalTime` to the new
value and preserves the other fields), triggers a refresh when the routine is
active (answering 500 if a refresh is already pending), and answers 202. -/
theorem patch_interval_behavior (routines : List Routine) (nm : GoStr) (i : Nat)
    (r : Routine) (k : Int) (body : PatchBody)
    (hfind : getRoutine routines nm = some i) (hr : routines[i]? = some r) :
    (∀ nm2, getRoutine routines nm2 = none →
        handlePatchRoutine routines nm2 body = (routines, 400))
    ∧ (0 ≤ k → r.isActive = true → r.updateFull = false →
        handlePatchRoutine routines nm (PatchBody.parsed (some k))
          = (routines.set i { setInterval r k.toNat with updateFull := true }, 202)
        ∧ (setInterval r k.toNat).intervalTime = k.toNat * nsPerSec
        ∧ (setInterval r k.toNat).isActive = r.isActive
        ∧ (setInterval r k.toNat).name = r.name)
    ∧ (0 ≤ k → r.isActive = true → r.updateFull = true →
        handlePatchRoutine routines nm (PatchBody.parsed (some k))
          = (routines.set i (setInterval r k.toNat), 500))
    ∧ (0 ≤ k → r.isActive = false →
        handlePatchRoutine routines nm (PatchBody.parsed (some k))
          = (routines.set i (setInterval r k.toNat), 202))
    ∧ (k < 0 → r.isActive = true → r.updateFull = false →
        handlePatchRoutine routines nm (PatchBody.parsed (some k))
          = (routines.set i { r with updateFull := true }, 202)) := by
  refine ⟨?_, ?_, ?_, ?_, ?_⟩
  · intro nm2 hnone
    rw [handlePatchRoutine, hnone]
  · intro hk hact hfull
    refine ⟨?_, by simp [setInterval], by simp [setInterval], by simp [setInterval]⟩
    rw [handlePatchRoutine, hfind]
    simp only [List.getD_eq_getElem?_getD, hr, Option.getD_some]
    rw [if_pos hk]
    simp [setInterval, hact, hfull]
  · intro hk hact hfull
    rw [handlePatchRoutine, hfind]
    simp only [List.getD_eq_getElem?_getD, hr, Option.getD_some]
    rw [if_pos hk]
    simp [setInterval, hact, hfull]
  · intro hk hact
    rw [handlePatchRoutine, hfind]
    simp only [List.getD_eq_getElem?_getD, hr, Option.getD_some]
    rw [if_pos hk]
    simp [setInterval, hact]
  · intro hk hact hfull
    rw [handlePatchRoutine, hfind]
    simp only [List.getD_eq_getElem?_getD, hr, Option.getD_some]
    have hknot : ¬ ((0 : Int) ≤ k) := by omega
    rw [if_neg hknot]
    simp [hact, hfull]

theorem patch_interval_behavior_witness :
    (∀ nm2, getRoutine [activeSample] nm2 = none →
        handlePatchRoutine [activeSample] nm2 PatchBody.missing = ([activeSample], 400))
    ∧ ((0 : Int) ≤ 3 → activeSample.isActive = true → activeSample.updateFull = false →
        handlePatchRoutine [activeSample] (gs "sbbattery") (PatchBody.parsed (some 3))
          = ([activeSample].set 0 { setInterval activeSample (Int.toNat 3) with
              updateFull := true }, 202)
        ∧ (setInterval activeSample (Int.toNat 3)).intervalTime = (Int.toNat 3) * nsPerSec
        ∧ (setInterval activeSample (Int.toNat 3)).isActive = activeSample.isActive
        ∧ (setInterval activeSample (Int.toNat 3)).name = activeSample.name)
    ∧ ((0 : Int) ≤ 3 → activeSample.isActive = true → activeSample.updateFull = true →
        handlePatchRoutine [activeSample] (gs "sbbattery") (PatchBody.parsed (some 3))
          = ([activeSample].set 0 (setInterval activeSample (Int.toNat 3)), 500))
    ∧ ((0 : Int) ≤ 3 → activeSample.isActive = false →
        handlePatchRoutine [activeSample] (gs "sbbattery") (PatchBody.parsed (some 3))
          = ([activeSample].set 0 (setInterval activeSample (Int.toNat 3)), 202))
    ∧ ((3 : Int) < 0 → activeSample.isActive = true → activeSample.updateFull = false →
        handlePatchRoutine [activeSample] (gs "sbbattery") (PatchBody.parsed (some 3))
          = ([activeSample].set 0 { activeSample with updateFull := true }, 202)) :=
  patch_interval_behavior [activeSample] (gs "sbbattery") 0 activeSample 3 PatchBody.missing
    (by decide) (by decide)

/-- Claim C8 counterexample: `Append` derives the moduleID from the handler's
package name, so two registrations whose handlers come from the same package
(here two `sbbattery.Routine` handlers) are assigned the same moduleID
`"sbbattery"` — the assigned moduleIDs are not pairwise distinct. -/
theorem append_duplicate_module_ids :
    (appendAll [(gs "*sbbattery.Routine", gs "Battery", 3),
        (gs "*sbbattery.Routine", gs "Battery", 5)]).map Routine.name
      = [gs "sbbattery", gs "sbbattery"]
    ∧ ¬ List.Pairwise (fun a b => a ≠ b)
        ((appendAll [(gs "*sbbattery.Routine", gs "Battery", 3),
          (gs "*sbbattery.Routine", gs "Battery", 5)]).map Routine.name) := by
  decide

theorem getRoutine_of_pairwise (routines : List Routine)
    (h : List.Pairwise (fun a b => a.name ≠ b.name) routines) (i : Nat) (r : Routine)
    (hr : routines[i]? = some r) :
    getRoutine routines r.name = some i := by
  induction routines generalizing i with
  | nil => simp at hr
  | cons a rest ih =>
    cases i with
    | zero =>
      have ha : a = r := by simpa using hr
      subst ha
      simp [getRoutine]
    | succ j =>
      have hr' : rest[j]? = some r := by simpa using hr
      have hmem : r ∈ rest := List.getElem?_mem hr'
      have hne : r.name ≠ a.name := fun he => (List.pairwise_cons.mp h).1 r hmem he.symm
      rw [getRoutine, if_neg hne, ih (List.pairwise_cons.mp h).2 j hr']
      rfl

theorem appendAll_names (regs : List (GoStr × GoStr × Nat)) :
    (appendAll regs).map Routine.name = regs.map (fun p => moduleNameOfType p.1) := by
  suffices h : ∀ acc : List Routine,
      ((regs.foldl (fun acc p => appendRoutine acc p.1 p.2.1 p.2.2) acc).map Routine.name)
        = acc.map Routine.name ++ regs.map (fun p => moduleNameOfType p.1) by
    simpa using h []
  induction regs with
  | nil => simp
  | cons p rest ih =>
    intro acc
    rw [List.foldl_cons, ih]
    simp [appendRoutine]

/-- Claim C8 (amended): `Append` does not enforce uniqueness of moduleIDs —
each registration's moduleID is the package name derived from the handler's
type string, so two handlers from the same package receive identical
moduleIDs (see the counterexample) and a lookup then returns the first
match. When the derived package names of a registration sequence are
pairwise distinct, the assigned moduleIDs are exactly those names and a
control-plane lookup by a registered routine's moduleID identifies exactly
that routine. -/
theorem module_ids_from_packages (regs : List (GoStr × GoStr × Nat)) (i : Nat) (r : Routine)
    (hr : (appendAll regs)[i]? = some r)
    (hdist : List.Pairwise (fun a b => a ≠ b) (regs.map (fun p => moduleNameOfType p.1))) :
    (appendAll regs).map Routine.name = regs.map (fun p => moduleNameOfType p.1)
    ∧ getRoutine (appendAll regs) r.name = some i := by
  refine ⟨appendAll_names regs, ?_⟩
  have hnames : List.Pairwise (fun a b => a ≠ b) ((appendAll regs).map Routine.name) := by
    rw [appendAll_names]
    exact hdist
  rw [List.pairwise_map] at hnames
  exact getRoutine_of_pairwise (appendAll regs) hnames i r hr

theorem module_ids_from_packages_witness :
    (appendAll [(gs "*sbbattery.Routine", gs "Battery", 3),
        (gs "*sbfan.Routine", gs "Fan", 5)]).map Routine.name
      = [(gs "*sbbattery.Routine", gs "Battery", 3),
          (gs "*sbfan.Routine", gs "Fan", 5)].map (fun p => moduleNameOfType p.1)
    ∧ getRoutine (appendAll [(gs "*sbbattery.Routine", gs "Battery", 3),
        (gs "*sbfan.Routine", gs "Fan", 5)]) fanSample.name = some 1 :=
  module_ids_from_packages
    [(gs "*sbbattery.Routine", gs "Battery", 3), (gs "*sbfan.Routine", gs "Fan", 5)]
    1 fanSample (by decide) (by decide)

/-! ## Theorems about the aggregator -/

theorem length_shorten_long (s : GoStr) (h : s.length > 60) :
    (shorten s).length = if colorEnd.isSuffixOf s then 62 else 59 := by
  have ht : (s.take 56).length = 56 := by
    rw [List.length_take]
    omega
  rw [shorten, if_pos h]
  cases hc : colorEnd.isSuffixOf s
  · simp only [hc, Bool.false_eq_true, if_false]
    simp [ellipsisStr, ht]
  · simp only [hc, if_true]
    simp [ellipsisStr, colorEnd, ht]

/-- Claim C5 counterexample: a 61-byte slot string is shortened to 59 bytes
(its first 56 bytes plus the three-byte ellipsis), not to "the budget length
plus an ellipsis": the result is neither the 60-byte prefix followed by the
ellipsis (63 bytes) nor 60 bytes long. -/
theorem shorten_budget_cex :
    (shorten (List.replicate 61 'a')).length = 59
    ∧ shorten (List.replicate 61 'a') ≠ (List.replicate 61 'a').take 60 ++ ellipsisStr
    ∧ (shorten (List.replicate 61 'a')).length ≠ 60 := by
  decide

/-- Claim C5 (amended): a slot string longer than the 60-byte display budget
is shortened to its first 56 bytes plus the ellipsis `"..."` — 59 bytes,
within the budget — and when the original ends with the style terminator
`"^d^"` the terminator is re-appended after the ellipsis (62 bytes total);
a slot string of at most 60 bytes passes through `shorten` unmodified and
appears between its delimiters in the built fragment. -/
theorem shorten_spec (lD rD : GoStr) (s : GoStr) :
    (s.length > 60 →
        (colorEnd.isSuffixOf s = true → shorten s = s.take 56 ++ ellipsisStr ++ colorEnd)
        ∧ (colorEnd.isSuffixOf s = false → shorten s = s.take 56 ++ ellipsisStr)
        ∧ (shorten s).length = (if colorEnd.isSuffixOf s then 62 else 59))
    ∧ (s.length ≤ 60 → shorten s = s)
    ∧ (s.length > 0 → buildFrags lD rD (-1) [s] 0 = lD ++ shorten s ++ rD ++ [' ']) := by
  refine ⟨fun h => ⟨?_, ?_, length_shorten_long s h⟩, ?_, ?_⟩
  · intro hc
    rw [shorten, if_pos h]
    simp [hc]
  · intro hc
    rw [shorten, if_pos h]
    simp [hc]
  · intro h
    rw [shorten, if_neg (by omega)]
  · intro h
    rw [buildFrags]
    simp [h, buildFrags]

theorem shorten_spec_witness :
    shorten (List.replicate 61 'a') = (List.replicate 61 'a').take 56 ++ ellipsisStr
    ∧ shorten (List.replicate 30 'a') = List.replicate 30 'a'
    ∧ buildFrags (gs "[") (gs "]") (-1) [List.replicate 30 'a'] 0
        = gs "[" ++ shorten (List.replicate 30 'a') ++ gs "]" ++ [' '] :=
  ⟨((shorten_spec [] [] (List.replicate 61 'a')).1 (by decide)).2.1 (by decide),
   (shorten_spec [] [] (List.replicate 30 'a')).2.1 (by decide),
   (shorten_spec (gs "[") (gs "]") (List.replicate 30 'a')).2.2 (by decide)⟩

theorem buildFrags_out_of_range (lD rD : GoStr) (split : Int) (outputs : List GoStr)
    (i0 : Nat) (h : ∀ j : Nat, i0 ≤ j → j < i0 + outputs.length → (j : Int) ≠ split) :
    buildFrags lD rD split outputs i0
      = ((specWrapped lD rD outputs).map (fun x => x ++ [' '])).flatten := by
  induction outputs generalizing i0 with
  | nil => simp [buildFrags, specWrapped]
  | cons s rest ih =>
    rw [buildFrags, if_neg (h i0 le_rfl (by simp))]
    rw [ih (i0 + 1) (fun j hj1 hj2 => h j (by omega) (by simp; omega))]
    by_cases hs : s.length > 0
    · simp [hs, specWrapped]
    · simp [hs, specWrapped]

theorem flatten_append_space (l : List GoStr) (hne : l ≠ []) :
    ((l.map (fun x => x ++ [' '])).flatten) = sepJoin l ++ [' '] := by
  induction l with
  | nil => exact absurd rfl hne
  | cons x rest ih =>
    cases rest with
    | nil => simp [sepJoin]
    | cons y t =>
      rw [List.map_cons, List.flatten_cons, ih (by simp), sepJoin]
      simp

theorem buildFrags_all_empty (lD rD : GoStr) (split : Int) (outputs : List GoStr)
    (i0 : Nat) (h : ∀ s ∈ outputs, s = []) :
    buildFrags lD rD split outputs i0
      = if (i0 : Int) ≤ split ∧ split < (i0 : Int) + outputs.length then [';'] else [] := by
  induction outputs generalizing i0 with
  | nil =>
    rw [buildFrags]
    split_ifs with hcon
    · exfalso
      simp only [List.length_nil, Nat.cast_zero, add_zero] at hcon
      omega
    · rfl
  | cons s rest ih =>
    have hs : s = [] := h s (by simp)
    subst hs
    rw [buildFrags, ih (i0 + 1) (fun q hq => h q (by simp [hq]))]
    simp only [List.length_nil, List.length_cons, Nat.cast_add, Nat.cast_one, gt_iff_lt,
      Nat.lt_irrefl, if_false, List.nil_append, Nat.cast_ofNat]
    split_ifs with h1 h2 h3 <;> first | rfl | (exfalso; omega)

/-- Claim C6 counterexample: with every slot empty but the split index in
range (one empty slot, split index 0), the built string is the lone `';'`
marker, the final-byte trim removes it, and the empty string — not the
`"No output"` placeholder — is handed to the display sink. -/
theorem buildBar_empty_split_cex :
    buildBarString (gs "[") (gs "]") 0 [[]] = []
    ∧ buildBarString (gs "[") (gs "]") 0 [[]] ≠ noOutput := by
  decide

/-- Claim C6 (amended): when the split marker is not inserted (split index
out of range, e.g. the default −1), the aggregation step equals the spec's
join: the wrapped fragments separated by single spaces with the final
trailing space removed, and the `"No output"` placeholder exactly when there
is no fragment — in particular when every slot is empty. When every slot is
empty but the split index is in range, the built string is just `";"` and
the final-byte trim yields the empty string instead of the placeholder. -/
theorem buildBar_join_and_placeholder (lD rD : GoStr) (split : Int) (outputs : List GoStr) :
    (split < 0 ∨ (outputs.length : Int) ≤ split →
        buildBarString lD rD split outputs
          = (if specWrapped lD rD outputs = [] then noOutput
              else sepJoin (specWrapped lD rD outputs)))
    ∧ ((∀ s ∈ outputs, s = []) → (split < 0 ∨ (outputs.length : Int) ≤ split) →
        buildBarString lD rD split outputs = noOutput)
    ∧ ((∀ s ∈ outputs, s = []) → 0 ≤ split → split < (outputs.length : Int) →
        buildBarString lD rD split outputs = []) := by
  have hout : split < 0 ∨ (outputs.length : Int) ≤ split →
      buildBarString lD rD split outputs
        = (if specWrapped lD rD outputs = [] then noOutput
            else sepJoin (specWrapped lD rD outputs)) := by
    intro h
    have hr : ∀ j : Nat, 0 ≤ j → j < 0 + outputs.length → (j : Int) ≠ split := by
      intro j _ hj he
      rcases h with h | h
      · omega
      · subst he
        simp at hj
        omega
    have hb := buildFrags_out_of_range lD rD split outputs 0 hr
    by_cases hw : specWrapped lD rD outputs = []
    · rw [buildBarString]
      simp only [hb, hw, if_pos rfl]
      simp
    · have hflat := flatten_append_space (specWrapped lD rD outputs) hw
      rw [buildBarString]
      simp only [hb, hflat, if_neg hw]
      rw [if_pos (by simp)]
      simp
  refine ⟨hout, ?_, ?_⟩
  · intro hemp hsp
    rw [hout hsp, if_pos]
    rw [specWrapped, List.filter_eq_nil_iff.mpr]
    · simp
    · intro s hs
      simp [hemp s hs]
  · intro hemp h0 hlen
    have hb := buildFrags_all_empty lD rD split outputs 0 hemp
    rw [if_pos (by constructor <;> [exact h0; simpa using hlen])] at hb
    rw [buildBarString]
    simp only [hb]
    simp

theorem buildBar_join_and_placeholder_witness :
    buildBarString (gs "[") (gs "]") (-1) [gs "a", [], gs "b"]
        = (if specWrapped (gs "[") (gs "]") [gs "a", [], gs "b"] = [] then noOutput
            else sepJoin (specWrapped (gs "[") (gs "]") [gs "a", [], gs "b"]))
    ∧ buildBarString (gs "[") (gs "]") (-1) [[], []] = noOutput
    ∧ buildBarString (gs "[") (gs "]") 0 [[], []] = [] :=
  ⟨(buildBar_join_and_placeholder (gs "[") (gs "]") (-1) [gs "a", [], gs "b"]).1
      (Or.inl (by decide)),
   (buildBar_join_and_placeholder (gs "[") (gs "]") (-1) [[], []]).2.1 (by decide)
      (Or.inl (by decide)),
   (buildBar_join_and_placeholder (gs "[") (gs "]") 0 [[], []]).2.2 (by decide) (by decide)
      (by decide)⟩

theorem initSys_procs_spec (pends : List (List GoStr)) (i : Nat) (p : ProcState)
    (hp : (initSys pends).procs[i]? = some p) :
    p.holding = none ∧ p.done = []
    ∧ p.wIdx = (if i < pends.length then some i else none) := by
  rw [initSys] at hp
  by_cases hi : i < pends.length
  · rw [List.getElem?_append_left (by simpa using hi)] at hp
    rw [List.getElem?_map, List.getElem?_range hi] at hp
    cases hp
    simp [hi]
  · rw [List.getElem?_append_right (by simpa using hi)] at hp
    simp only [List.length_map, List.length_range] at hp
    rcases hd : i - pends.length with _ | j
    · rw [hd] at hp
      simp only [List.getElem?_cons_zero] at hp
      cases hp
      simp [hi]
    · rw [hd] at hp
      simp at hp

theorem SysInv_init (pends : List (List GoStr)) :
    SysInv pends.length (initSys pends) := by
  refine ⟨?_, ?_, ?_, ?_, ?_⟩
  · intro _ i p hp
    exact (initSys_procs_spec pends i p hp).1
  · intro i j p q hp hq hps _
    rw [(initSys_procs_spec pends i p hp).1] at hps
    simp at hps
  · rw [initSys]
    simp
  · intro i p hp
    exact (initSys_procs_spec pends i p hp).2.2
  · intro arr harr
    have harr' : arr = List.replicate pends.length [] := by
      rcases harr with h | ⟨j, p, hp, hh⟩
      · rw [initSys] at h
        simp only at h
        exact (Option.some_inj.mp h).symm
      · rw [(initSys_procs_spec pends j p hp).1] at hh
        exact absurd hh (by simp)
    subst harr'
    refine ⟨by simp, ?_⟩
    intro k p w hp hw
    obtain ⟨hhold, hdone, hwidx⟩ := initSys_procs_spec pends k p hp
    rw [hwidx] at hw
    by_cases hk : k < pends.length
    · rw [if_pos hk] at hw
      cases hw
      rw [List.getElem?_replicate_of_lt hk, lastDone, hdone]
      rfl
    · rw [if_neg hk] at hw
      exact Option.noConfusion hw

theorem getElem?_some_lt {α : Type} (l : List α) (i : Nat) (p : α)
    (h : l[i]? = some p) : i < l.length := by
  by_contra hge
  rw [List.getElem?_eq_none (by omega)] at h
  exact Option.noConfusion h

theorem SysInv_step (n : Nat) (s s' : Sys) (hstep : Step s s') (hinv : SysInv n s) :
    SysInv n s' := by
  obtain ⟨h1, h2, h3, h4, h5⟩ := hinv
  cases hstep with
  | take i p arr hp hh hg hc =>
    have hilen : i < s.procs.length := getElem?_some_lt s.procs i p hp
    have hchan : s.chan.isSome = true := by rw [hc]; rfl
    have honly : ∀ (j : Nat) (q : ProcState),
        (s.procs.set i { p with holding := some arr })[j]? = some q →
        q.holding.isSome = true → j = i ∧ q = { p with holding := some arr } := by
      intro j q hq hhq
      by_cases hji : j = i
      · subst hji
        rw [List.getElem?_set_self hilen] at hq
        exact ⟨rfl, (Option.some_inj.mp hq).symm⟩
      · rw [List.getElem?_set_ne (fun he => hji he.symm)] at hq
        rw [h1 hchan j q hq] at hhq
        exact absurd hhq (by simp)
    refine ⟨?_, ?_, ?_, ?_, ?_⟩
    · intro habs
      exact absurd habs (by simp)
    · intro j k q1 q2 hq1 hq2 hh1 hh2
      rw [(honly j q1 hq1 hh1).1, (honly k q2 hq2 hh2).1]
    · rw [List.length_set]
      exact h3
    · intro j q hq
      by_cases hji : j = i
      · subst hji
        rw [List.getElem?_set_self hilen] at hq
        rw [← Option.some_inj.mp hq]
        exact h4 j p hp
      · rw [List.getElem?_set_ne (fun he => hji he.symm)] at hq
        exact h4 j q hq
    · intro arr2 harr2
      have harr : arr2 = arr := by
        rcases harr2 with habs | ⟨j, q, hq, hhq⟩
        · exact absurd habs (by simp)
        · obtain ⟨hji, hqe⟩ := honly j q hq (by rw [hhq]; rfl)
          subst hqe
          simpa using hhq.symm
      subst harr
      obtain ⟨hlen, hslots⟩ := h5 arr2 (Or.inl hc)
      refine ⟨hlen, ?_⟩
      intro k q w hq hw
      by_cases hki : k = i
      · subst hki
        rw [List.getElem?_set_self hilen] at hq
        rw [← Option.some_inj.mp hq] at hw ⊢
        exact hslots k p w hp hw
      · rw [List.getElem?_set_ne (fun he => hki he.symm)] at hq
        exact hslots k q w hq hw
  | putSup i k p arr v rest hp hh hw hpend hc =>
    have hilen : i < s.procs.length := getElem?_some_lt s.procs i p hp
    have hki : k = i ∧ i < n := by
      rw [h4 i p hp] at hw
      by_cases hin : i < n
      · rw [if_pos hin] at hw
        exact ⟨(Option.some_inj.mp hw).symm, hin⟩
      · rw [if_neg hin] at hw
        exact absurd hw (by simp)
    have hnoh : ∀ (j : Nat) (q : ProcState),
        (s.procs.set i
            { p with holding := none, pending := rest, done := p.done ++ [v] })[j]?
          = some q → q.holding = none := by
      intro j q hq
      by_cases hji : j = i
      · subst hji
        rw [List.getElem?_set_self hilen] at hq
        rw [← Option.some_inj.mp hq]
      · rw [List.getElem?_set_ne (fun he => hji he.symm)] at hq
        cases hqh : q.holding with
        | none => rfl
        | some a =>
          exact absurd (h2 j i q p hq hp (by rw [hqh]; rfl) (by rw [hh]; rfl)) hji
    refine ⟨?_, ?_, ?_, ?_, ?_⟩
    · intro _ j q hq
      exact hnoh j q hq
    · intro j j2 q1 q2 hq1 hq2 hh1 hh2
      rw [hnoh j q1 hq1] at hh1
      exact absurd hh1 (by simp)
    · rw [List.length_set]
      exact h3
    · intro j q hq
      by_cases hji : j = i
      · subst hji
        rw [List.getElem?_set_self hilen] at hq
        rw [← Option.some_inj.mp hq]
        exact h4 j p hp
      · rw [List.getElem?_set_ne (fun he => hji he.symm)] at hq
        exact h4 j q hq
    · intro arr2 harr2
      obtain ⟨hlen, hslots⟩ := h5 arr (Or.inr ⟨i, p, hp, hh⟩)
      have harr : arr2 = arr.set k v := by
        rcases harr2 with hch | ⟨j, q, hq, hhq⟩
        · simpa using hch.symm
        · rw [hnoh j q hq] at hhq
          exact Option.noConfusion hhq
      subst harr
      refine ⟨by rw [List.length_set]; exact hlen, ?_⟩
      intro k2 q2 w hq2 hw2
      by_cases hki2 : k2 = i
      · subst hki2
        rw [List.getElem?_set_self hilen] at hq2
        rw [← Option.some_inj.mp hq2] at hw2 ⊢
        have hwi : w = k := by
          have : p.wIdx = some w := hw2
          rw [hw] at this
          exact (Option.some_inj.mp this).symm
        subst hwi
        rw [List.getElem?_set_self (by rw [hlen]; rw [hki.1]; exact hki.2)]
        rw [lastDone]
        simp [List.getLast?_concat]
      · rw [List.getElem?_set_ne (fun he => hki2 he.symm)] at hq2
        have hw2' : w = k2 := by
          rw [h4 k2 q2 hq2] at hw2
          by_cases hk2n : k2 < n
          · rw [if_pos hk2n] at hw2
            exact (Option.some_inj.mp hw2).symm
          · rw [if_neg hk2n] at hw2
            exact absurd hw2 (by simp)
        have hwk : w ≠ k := by
          rw [hw2', hki.1]
          exact hki2
        rw [List.getElem?_set_ne (fun he => hwk he.symm)]
        exact hslots k2 q2 w hq2 hw2
  | putAgg i p arr hp hh hwn hc =>
    have hilen : i < s.procs.length := getElem?_some_lt s.procs i p hp
    have hnoh : ∀ (j : Nat) (q : ProcState),
        (s.procs.set i { p with holding := none })[j]? = some q → q.holding = none := by
      intro j q hq
      by_cases hji : j = i
      · subst hji
        rw [List.getElem?_set_self hilen] at hq
        rw [← Option.some_inj.mp hq]
      · rw [List.getElem?_set_ne (fun he => hji he.symm)] at hq
        cases hqh : q.holding with
        | none => rfl
        | some a =>
          exact absurd (h2 j i q p hq hp (by rw [hqh]; rfl) (by rw [hh]; rfl)) hji
    refine ⟨?_, ?_, ?_, ?_, ?_⟩
    · intro _ j q hq
      exact hnoh j q hq
    · intro j j2 q1 q2 hq1 hq2 hh1 hh2
      rw [hnoh j q1 hq1] at hh1
      exact absurd hh1 (by simp)
    · rw [List.length_set]
      exact h3
    · intro j q hq
      by_cases hji : j = i
      · subst hji
        rw [List.getElem?_set_self hilen] at hq
        rw [← Option.some_inj.mp hq]
        exact h4 j p hp
      · rw [List.getElem?_set_ne (fun he => hji he.symm)] at hq
        exact h4 j q hq
    · intro arr2 harr2
      obtain ⟨hlen, hslots⟩ := h5 arr (Or.inr ⟨i, p, hp, hh⟩)
      have harr : arr2 = arr := by
        rcases harr2 with hch | ⟨j, q, hq, hhq⟩
        · simpa using hch.symm
        · rw [hnoh j q hq] at hhq
          exact Option.noConfusion hhq
      subst harr
      refine ⟨hlen, ?_⟩
      intro k2 q2 w hq2 hw2
      by_cases hki2 : k2 = i
      · subst hki2
        rw [List.getElem?_set_self hilen] at hq2
        rw [← Option.some_inj.mp hq2] at hw2
        have : p.wIdx = some w := hw2
        rw [hwn] at this
        exact absurd this (by simp)
      · rw [List.getElem?_set_ne (fun he => hki2 he.symm)] at hq2
        exact hslots k2 q2 w hq2 hw2

theorem SysInv_reachable (pends : List (List GoStr)) (s : Sys)
    (h : Reachable (initSys pends) s) : SysInv pends.length s := by
  induction h with
  | refl => exact SysInv_init pends
  | tail s1 s2 hreach hstep ih => exact SysInv_step pends.length s1 s2 hstep ih

/-- Claim C9: the outputs slice is handled as a single token on the
capacity-1 channel — every supervisor write and every aggregator read first
receives the slice and sends it back right after the access (this is the
`Step` relation, embedding routine.go lines 71–73 and `buildBar`). In every
reachable system state: at most one process holds the slice, so the
aggregator (the `wIdx = none` process) never holds it — never reads any
slot — while a supervisor holds it mid-write; when the channel is full no
process is mid-access at all; and every copy of the slice in circulation
carries, in each slot, exactly the last value written by the supervisor
owning that slot — no write is ever lost. -/
theorem slot_token_mutual_exclusion (pends : List (List GoStr)) (s : Sys)
    (h : Reachable (initSys pends) s) :
    (∀ (i j : Nat) (p q : ProcState), s.procs[i]? = some p → s.procs[j]? = some q →
        p.holding.isSome = true → q.holding.isSome = true → i = j)
    ∧ (s.chan.isSome = true → ∀ (i : Nat) (p : ProcState), s.procs[i]? = some p →
        p.holding = none)
    ∧ (∀ arr : List GoStr,
        (s.chan = some arr ∨ ∃ (j : Nat) (p : ProcState), s.procs[j]? = some p ∧
            p.holding = some arr) →
        arr.length = pends.length
        ∧ ∀ (k : Nat) (p : ProcState) (w : Nat), s.procs[k]? = some p →
            p.wIdx = some w → arr[w]? = some (lastDone p)) := by
  obtain ⟨h1, h2, h3, h4, h5⟩ := SysInv_reachable pends s h
  exact ⟨h2, h1, h5⟩

theorem slot_token_mutual_exclusion_witness :
    (∀ (i j : Nat) (p q : ProcState), (initSys [[gs "x"]]).procs[i]? = some p →
        (initSys [[gs "x"]]).procs[j]? = some q →
        p.holding.isSome = true → q.holding.isSome = true → i = j)
    ∧ ((initSys [[gs "x"]]).chan.isSome = true → ∀ (i : Nat) (p : ProcState),
        (initSys [[gs "x"]]).procs[i]? = some p → p.holding = none)
    ∧ (∀ arr : List GoStr,
        ((initSys [[gs "x"]]).chan = some arr ∨ ∃ (j : Nat) (p : ProcState),
            (initSys [[gs "x"]]).procs[j]? = some p ∧ p.holding = some arr) →
        arr.length = [[gs "x"]].length
        ∧ ∀ (k : Nat) (p : ProcState) (w : Nat), (initSys [[gs "x"]]).procs[k]? = some p →
            p.wIdx = some w → arr[w]? = some (lastDone p)) :=
  slot_token_mutual_exclusion [[gs "x"]] (initSys [[gs "x"]]) Reachable.refl

end Statusbar
